import Mathlib

/-!
Shallow embedding of the Lex model-building "finder" helpers of the
`lexmodels` service package: the single-item lookup wrappers
`FindBotVersionByName` and `FindSlotTypeVersionByName`, and the three
latest-version resolvers `FindLatestBotVersionByName`,
`FindLatestIntentVersionByName` and `FindLatestSlotTypeVersionByName`,
together with models of the library pieces they use
(`strconv.Atoi`, `strconv.Itoa`, `aws.ToString`, the generated paginators).
-/

/-- Numeric value of an ASCII digit character. -/
def digitVal (c : Char) : Nat := c.toNat - 48

/-- Decimal digit-run parsing used by the model of Go `strconv.Atoi`:
a nonempty all-digit character list yields its base-10 value. -/
def parseDigits (cs : List Char) : Option Nat :=
  if cs.isEmpty then none
  else if cs.all Char.isDigit then
    some (cs.foldl (fun a c => a * 10 + digitVal c) 0)
  else none

/-- Go `int` is 64-bit on the targeted platforms: `strconv.ParseInt`
reports `ErrRange` for values outside the `int64` range, and the callers
here treat any parse error as "skip". -/
def int64Range (v : Int) : Option Int :=
  if -(2 ^ 63) ≤ v ∧ v ≤ 2 ^ 63 - 1 then some v else none

/-- Sign handling of the model of Go `strconv.Atoi`, applied to the first
character and the remaining characters of a nonempty string. -/
def strconv.atoiSigned (c : Char) (cs : List Char) : Option Int :=
  if c = '+' then (parseDigits cs).bind fun n => int64Range n
  else if c = '-' then (parseDigits cs).bind fun n => int64Range (-(n : Int))
  else (parseDigits (c :: cs)).bind fun n => int64Range n

/-- Model of Go `strconv.Atoi`: an optional sign followed by a nonempty run
of ASCII digits spanning the whole string; out-of-range values fail. -/
def strconv.Atoi (s : String) : Option Int :=
  match s.data with
  | [] => none
  | c :: cs => strconv.atoiSigned c cs

/-- Fuel-driven decimal digit list of a natural number, most significant
digit first; any fuel greater than `n` is enough. -/
def natDigitsAux : Nat → Nat → List Char
  | 0, _ => []
  | fuel + 1, n =>
    if n < 10 then [Nat.digitChar n]
    else natDigitsAux fuel (n / 10) ++ [Nat.digitChar (n % 10)]

/-- Decimal digit list of a natural number. -/
def natDigits (n : Nat) : List Char := natDigitsAux (n + 1) n

/-- Model of Go `strconv.Itoa`. -/
def strconv.Itoa (i : Int) : String :=
  if i < 0 then String.mk ('-' :: natDigits i.natAbs)
  else String.mk (natDigits i.natAbs)

/-- Model of `aws.ToString` on a `*string` field: `nil` becomes `""`. -/
def aws.ToString (s : Option String) : String := s.getD ""

/-- One record of a `GetBotVersions` page (field `Version *string`). -/
structure BotMetadata where
  Version : Option String
deriving DecidableEq

/-- One page returned by the `GetBotVersions` listing call. -/
structure GetBotVersionsOutput where
  Bots : List BotMetadata
deriving DecidableEq

/-- One record of a `GetIntentVersions` page (field `Version *string`). -/
structure IntentMetadata where
  Version : Option String
deriving DecidableEq

/-- One page returned by the `GetIntentVersions` listing call. -/
structure GetIntentVersionsOutput where
  Intents : List IntentMetadata
deriving DecidableEq

/-- One record of a `GetSlotTypeVersions` page (field `Version *string`). -/
structure SlotTypeMetadata where
  Version : Option String
deriving DecidableEq

/-- One page returned by the `GetSlotTypeVersions` listing call. -/
structure GetSlotTypeVersionsOutput where
  SlotTypes : List SlotTypeMetadata
deriving DecidableEq

/-- Modelled from the spec: the generated paginators
(`GetBotVersionsPagesWithContext` and its intent and slot-type siblings)
are produced by a code generator and their bodies are not part of this
fragment. Per the spec, a paginator performs successive page fetches,
invokes the callback with each fetched page (which may be `nil`) and a
flag telling whether this is the last page, continues while the callback
returns `true` and pages remain, and aborts with the fetch error if any
page fetch fails. The page-fetch outcomes are the `fetches` list: an
`Except.error` entry is a failing fetch, an `Except.ok` entry a fetched
(possibly `nil`) page, the last list entry being the last page. The
callback's closure state is passed explicitly. -/
def pagesWithContext {σ π ε : Type} (fn : σ → Option π → Bool → σ × Bool) :
    List (Except ε (Option π)) → σ → σ × Option ε
  | [], st => (st, none)
  | fetch :: rest, st =>
    match fetch with
    | .error e => (st, some e)
    | .ok page =>
      let r := fn st page rest.isEmpty
      if r.2 then pagesWithContext fn rest r.1 else (r.1, none)

/-- The page callback of `FindLatestBotVersionByName`, with the Go
closure's captured `latestVersion` made an explicit state argument. -/
def botVersionsPageFn (BotVersionLatest : String) (latestVersion : Int)
    (page : Option GetBotVersionsOutput) (lastPage : Bool) : Int × Bool :=
  match page with
  | none => (latestVersion, !lastPage)
  | some page =>
    (page.Bots.foldl
      (fun latestVersion bot =>
        let version := aws.ToString bot.Version
        if version == BotVersionLatest then latestVersion
        else
          match strconv.Atoi version with
          | none => latestVersion
          | some version =>
            if version > latestVersion then version else latestVersion)
      latestVersion,
     !lastPage)

/-- `FindLatestBotVersionByName` returns the latest published version of a
bot, or the sentinel if the bot has never been published. Modelled from the
spec where the fragment depends on code outside it: the sentinel constant
`BotVersionLatest` is taken as a parameter (the spec only requires a
reserved literal), and the generated paginator is `pagesWithContext`. -/
def FindLatestBotVersionByName {ε : Type} (BotVersionLatest : String)
    (fetches : List (Except ε (Option GetBotVersionsOutput))) :
    String × Option ε :=
  let r := pagesWithContext (botVersionsPageFn BotVersionLatest) fetches 0
  match r.2 with
  | some e => ("", some e)
  | none =>
    if r.1 = 0 then (BotVersionLatest, none)
    else (strconv.Itoa r.1, none)

/-- The page callback of `FindLatestIntentVersionByName`, with the Go
closure's captured `latestVersion` made an explicit state argument. -/
def intentVersionsPageFn (IntentVersionLatest : String) (latestVersion : Int)
    (page : Option GetIntentVersionsOutput) (lastPage : Bool) : Int × Bool :=
  match page with
  | none => (latestVersion, !lastPage)
  | some page =>
    (page.Intents.foldl
      (fun latestVersion intent =>
        let version := aws.ToString intent.Version
        if version == IntentVersionLatest then latestVersion
        else
          match strconv.Atoi version with
          | none => latestVersion
          | some version =>
            if version > latestVersion then version else latestVersion)
      latestVersion,
     !lastPage)

/-- `FindLatestIntentVersionByName` returns the latest published version of
an intent, or the sentinel if the intent has never been published.
Modelled from the spec in the same way as `FindLatestBotVersionByName`. -/
def FindLatestIntentVersionByName {ε : Type} (IntentVersionLatest : String)
    (fetches : List (Except ε (Option GetIntentVersionsOutput))) :
    String × Option ε :=
  let r := pagesWithContext (intentVersionsPageFn IntentVersionLatest) fetches 0
  match r.2 with
  | some e => ("", some e)
  | none =>
    if r.1 = 0 then (IntentVersionLatest, none)
    else (strconv.Itoa r.1, none)

/-- The page callback of `FindLatestSlotTypeVersionByName`, with the Go
closure's captured `latestVersion` made an explicit state argument. -/
def slotTypeVersionsPageFn (SlotTypeVersionLatest : String)
    (latestVersion : Int) (page : Option GetSlotTypeVersionsOutput)
    (lastPage : Bool) : Int × Bool :=
  match page with
  | none => (latestVersion, !lastPage)
  | some page =>
    (page.SlotTypes.foldl
      (fun latestVersion slot =>
        let version := aws.ToString slot.Version
        if version == SlotTypeVersionLatest then latestVersion
        else
          match strconv.Atoi version with
          | none => latestVersion
          | some version =>
            if version > latestVersion then version else latestVersion)
      latestVersion,
     !lastPage)

/-- `FindLatestSlotTypeVersionByName` returns the latest published version
of a slot type, or the sentinel if it has never been published.
Modelled from the spec in the same way as `FindLatestBotVersionByName`. -/
def FindLatestSlotTypeVersionByName {ε : Type} (SlotTypeVersionLatest : String)
    (fetches : List (Except ε (Option GetSlotTypeVersionsOutput))) :
    String × Option ε :=
  let r :=
    pagesWithContext (slotTypeVersionsPageFn SlotTypeVersionLatest) fetches 0
  match r.2 with
  | some e => ("", some e)
  | none =>
    if r.1 = 0 then (SlotTypeVersionLatest, none)
    else (strconv.Itoa r.1, none)

/-- Errors coming back from the SDK calls: a typed `NotFoundException` or
any other error value. -/
inductive AWSError where
  | notFoundException (message : String)
  | otherError (message : String)
deriving DecidableEq

/-- Model of `errs.IsA[*awstypes.NotFoundException]` applied to a possibly
`nil` error. -/
def errs.IsANotFoundException : Option AWSError → Bool
  | some (.notFoundException _) => true
  | _ => false

/-- Request of the `GetBot` call. -/
structure GetBotInput where
  Name : Option String
  VersionOrAlias : Option String
deriving DecidableEq

/-- Response of the `GetBot` call (only the name field is modelled; the
finder passes the response through untouched). -/
structure GetBotOutput where
  Name : Option String
deriving DecidableEq

/-- Request of the `GetSlotType` call. -/
structure GetSlotTypeInput where
  Name : Option String
  Version : Option String
deriving DecidableEq

/-- Response of the `GetSlotType` call (only the name field is modelled;
the finder passes the response through untouched). -/
structure GetSlotTypeOutput where
  Name : Option String
deriving DecidableEq

/-- Provider-level errors produced by the single-item finders: the
`retry.NotFoundError` wrapper, the empty-result error, or an SDK error
passed through unchanged (`ρ` is the request type recorded in the
wrappers). -/
inductive ProviderError (ρ : Type) where
  | notFoundError (LastError : Option AWSError) (LastRequest : ρ)
  | emptyResultError (LastRequest : ρ)
  | passthrough (e : AWSError)
deriving DecidableEq

/-- `FindBotVersionByName`: the `GetBot` call is the injected `GetBot`
function, returning the Go pair (possibly-nil output, possibly-nil
error). -/
def FindBotVersionByName (name version : String)
    (GetBot : GetBotInput → Option GetBotOutput × Option AWSError) :
    Option GetBotOutput × Option (ProviderError GetBotInput) :=
  let input : GetBotInput := ⟨some name, some version⟩
  let (output, err) := GetBot input
  if errs.IsANotFoundException err then
    (none, some (.notFoundError err input))
  else
    match err with
    | some e => (none, some (.passthrough e))
    | none =>
      match output with
      | none => (none, some (.emptyResultError input))
      | some output => (some output, none)

/-- `FindSlotTypeVersionByName`: the `GetSlotType` call is the injected
`GetSlotType` function. -/
def FindSlotTypeVersionByName (name version : String)
    (GetSlotType : GetSlotTypeInput → Option GetSlotTypeOutput × Option AWSError) :
    Option GetSlotTypeOutput × Option (ProviderError GetSlotTypeInput) :=
  let input : GetSlotTypeInput := ⟨some name, some version⟩
  let (output, err) := GetSlotType input
  if errs.IsANotFoundException err then
    (none, some (.notFoundError err input))
  else
    match err with
    | some e => (none, some (.passthrough e))
    | none =>
      match output with
      | none => (none, some (.emptyResultError input))
      | some output => (some output, none)

/-- Version labels of one fetched bot page: for a `nil` page no records,
otherwise the `aws.ToString` of each record's `Version` field. -/
def botPageLabels : Option GetBotVersionsOutput → List String
  | none => []
  | some page => page.Bots.map (fun bot => aws.ToString bot.Version)

/-- Records of one fetched bot page. -/
def botPageRecords : Option GetBotVersionsOutput → List BotMetadata
  | none => []
  | some page => page.Bots

/-- Version labels of a whole sequence of fetched bot pages. -/
def botAllLabels (pages : List (Option GetBotVersionsOutput)) : List String :=
  (pages.map botPageLabels).flatten

/-- Version labels of one fetched intent page. -/
def intentPageLabels : Option GetIntentVersionsOutput → List String
  | none => []
  | some page => page.Intents.map (fun intent => aws.ToString intent.Version)

/-- Version labels of one fetched slot-type page. -/
def slotTypePageLabels : Option GetSlotTypeVersionsOutput → List String
  | none => []
  | some page => page.SlotTypes.map (fun slot => aws.ToString slot.Version)

/-- A bot page holding a given sequence of version labels (used to feed
the same label sequence to all three resolvers). -/
def botPageOfLabels (page : Option (List (Option String))) :
    Option GetBotVersionsOutput :=
  page.map fun versions => ⟨versions.map BotMetadata.mk⟩

/-- An intent page holding a given sequence of version labels. -/
def intentPageOfLabels (page : Option (List (Option String))) :
    Option GetIntentVersionsOutput :=
  page.map fun versions => ⟨versions.map IntentMetadata.mk⟩

/-- A slot-type page holding a given sequence of version labels. -/
def slotTypePageOfLabels (page : Option (List (Option String))) :
    Option GetSlotTypeVersionsOutput :=
  page.map fun versions => ⟨versions.map SlotTypeMetadata.mk⟩

/-- The per-record update of the resolvers' running maximum, as performed
by the loop body of the page callbacks. -/
def stepMax (sentinel : String) (latestVersion : Int) (version : String) :
    Int :=
  if version == sentinel then latestVersion
  else
    match strconv.Atoi version with
    | none => latestVersion
    | some version =>
      if version > latestVersion then version else latestVersion

/-- Folding the per-record update over a list of labels. -/
def scanLabels (sentinel : String) (latestVersion : Int)
    (labels : List String) : Int :=
  labels.foldl (stepMax sentinel) latestVersion

/-- The integer values of the non-sentinel labels that parse. -/
def parsedVersions (sentinel : String) (labels : List String) : List Int :=
  (labels.filter fun l => l != sentinel).filterMap strconv.Atoi

/-- Maximum of a list of integers, `none` when the list is empty. -/
def maxOfParsed : List Int → Option Int
  | [] => none
  | v :: vs =>
    match maxOfParsed vs with
    | none => some v
    | some m => some (max v m)

/-- Follows the words of claim C1 (not the code): skip sentinel labels,
skip labels that fail integer parsing, take the maximum parsed integer
across all pages, return the sentinel if no numeric label was ever
observed and otherwise the maximum re-encoded as its decimal string. -/
def specLatestVersion (sentinel : String) (labels : List String) : String :=
  match maxOfParsed (parsedVersions sentinel labels) with
  | none => sentinel
  | some m => strconv.Itoa m

/-- The amended resolution contract: the running maximum starts at zero and
only strictly greater parsed values replace it, so the result is the
sentinel when the maximum of zero and all parsed non-sentinel labels is
zero, and otherwise that (positive) maximum re-encoded in decimal. -/
def specLatestVersionAmended (sentinel : String) (labels : List String) :
    String :=
  let m := (parsedVersions sentinel labels).foldl max 0
  if m = 0 then sentinel else strconv.Itoa m

/-- A string that is a non-negative decimal integer with no leading zeros:
nonempty, all digits, and no leading '0' unless it is the single digit. -/
def isCanonicalDecimal (s : String) : Bool :=
  match s.data with
  | [] => false
  | c :: cs => c.isDigit && cs.all Char.isDigit && (cs.isEmpty || c != '0')


theorem digitChar_isDigit : ∀ n, n < 10 → (Nat.digitChar n).isDigit = true := by
  decide

theorem digitChar_ne_zero : ∀ n, n < 10 → 1 ≤ n → Nat.digitChar n ≠ '0' := by
  decide

theorem digitVal_digitChar : ∀ n, n < 10 → digitVal (Nat.digitChar n) = n := by
  decide

theorem natDigitsAux_spec :
    ∀ fuel n, n < fuel →
      natDigitsAux fuel n ≠ [] ∧
      (∀ c ∈ natDigitsAux fuel n, c.isDigit = true) ∧
      (1 ≤ n → (natDigitsAux fuel n).head? ≠ some '0') ∧
      ∀ acc : Nat,
        (natDigitsAux fuel n).foldl (fun a c => a * 10 + digitVal c) acc =
          acc * 10 ^ (natDigitsAux fuel n).length + n := by
  intro fuel
  induction fuel with
  | zero => intro n hn; exact absurd hn (Nat.not_lt_zero n)
  | succ fuel ih =>
    intro n hn
    by_cases h10 : n < 10
    · simp only [natDigitsAux, if_pos h10]
      refine ⟨by simp, ?_, ?_, ?_⟩
      · intro c hc
        rw [List.mem_singleton] at hc
        subst hc
        exact digitChar_isDigit n h10
      · intro h1
        simp only [List.head?_cons, ne_eq, Option.some.injEq]
        exact digitChar_ne_zero n h10 h1
      · intro acc
        simp [List.foldl, digitVal_digitChar n h10]
    · have hdiv : n / 10 < fuel := by
        have h1 : n / 10 < n := Nat.div_lt_self (by omega) (by omega)
        omega
      obtain ⟨hne, hdig, hhead, hfold⟩ := ih (n / 10) hdiv
      obtain ⟨c, cs, heq⟩ := List.exists_cons_of_ne_nil hne
      simp only [natDigitsAux, if_neg h10]
      refine ⟨by simp [heq], ?_, ?_, ?_⟩
      · intro d hd
        rw [List.mem_append] at hd
        rcases hd with hd | hd
        · exact hdig d hd
        · rw [List.mem_singleton] at hd
          subst hd
          exact digitChar_isDigit (n % 10) (Nat.mod_lt n (by omega))
      · intro _
        rw [heq] at hhead ⊢
        simpa using hhead (by omega)
      · intro acc
        rw [List.foldl_append, hfold acc, List.foldl_cons, List.foldl_nil,
          digitVal_digitChar (n % 10) (Nat.mod_lt n (by omega)),
          List.length_append, List.length_singleton, pow_succ, ← mul_assoc]
        generalize acc * 10 ^ (natDigitsAux fuel (n / 10)).length = m
        omega

theorem natDigits_ne_nil (n : Nat) : natDigits n ≠ [] :=
  (natDigitsAux_spec (n + 1) n (Nat.lt_succ_self n)).1

theorem natDigits_all_digit (n : Nat) :
    ∀ c ∈ natDigits n, c.isDigit = true :=
  (natDigitsAux_spec (n + 1) n (Nat.lt_succ_self n)).2.1

theorem natDigits_head_ne_zero (n : Nat) (h : 1 ≤ n) :
    (natDigits n).head? ≠ some '0' :=
  (natDigitsAux_spec (n + 1) n (Nat.lt_succ_self n)).2.2.1 h

theorem natDigits_foldl (n : Nat) :
    (natDigits n).foldl (fun a c => a * 10 + digitVal c) 0 = n := by
  have h := (natDigitsAux_spec (n + 1) n (Nat.lt_succ_self n)).2.2.2 0
  simpa using h

theorem parseDigits_natDigits (n : Nat) : parseDigits (natDigits n) = some n := by
  unfold parseDigits
  rw [if_neg, if_pos, natDigits_foldl]
  · rw [List.all_eq_true]
    exact natDigits_all_digit n
  · simp [List.isEmpty_iff, natDigits_ne_nil n]

theorem isDigit_ne_plus {c : Char} (h : c.isDigit = true) : ¬ (c = '+') := by
  intro hc
  rw [hc] at h
  exact absurd h (by decide)

theorem isDigit_ne_minus {c : Char} (h : c.isDigit = true) : ¬ (c = '-') := by
  intro hc
  rw [hc] at h
  exact absurd h (by decide)

theorem Atoi_data_nil (t : String) (h : t.data = []) : strconv.Atoi t = none := by
  cases t with
  | mk d =>
    replace h : d = [] := h
    subst h
    rfl

theorem Atoi_data_cons (t : String) (c : Char) (cs : List Char)
    (h : t.data = c :: cs) : strconv.Atoi t = strconv.atoiSigned c cs := by
  cases t with
  | mk d =>
    replace h : d = c :: cs := h
    subst h
    rfl

theorem Atoi_Itoa (m : Int) (h0 : 0 < m) (hr : m ≤ 2 ^ 63 - 1) :
    strconv.Atoi (strconv.Itoa m) = some m := by
  obtain ⟨c, cs, heq⟩ := List.exists_cons_of_ne_nil (natDigits_ne_nil m.natAbs)
  have hcdig : c.isDigit = true :=
    natDigits_all_digit m.natAbs c (heq ▸ List.mem_cons_self c cs)
  have hitoa : (strconv.Itoa m).data = c :: cs := by
    unfold strconv.Itoa
    rw [if_neg (by omega)]
    exact heq
  rw [Atoi_data_cons _ c cs hitoa]
  unfold strconv.atoiSigned
  rw [if_neg (isDigit_ne_plus hcdig), if_neg (isDigit_ne_minus hcdig), ← heq,
    parseDigits_natDigits]
  have habs : ((m.natAbs : Nat) : Int) = m := Int.natAbs_of_nonneg h0.le
  show int64Range ((m.natAbs : Nat) : Int) = some m
  rw [habs]
  unfold int64Range
  rw [if_pos ⟨by omega, hr⟩]

theorem isCanonicalDecimal_Itoa (m : Int) (h0 : 0 < m) :
    isCanonicalDecimal (strconv.Itoa m) = true := by
  unfold strconv.Itoa
  rw [if_neg (by omega)]
  obtain ⟨c, cs, heq⟩ := List.exists_cons_of_ne_nil (natDigits_ne_nil m.natAbs)
  have hcdig : c.isDigit = true :=
    natDigits_all_digit m.natAbs c (heq ▸ List.mem_cons_self c cs)
  have hcs : cs.all Char.isDigit = true := by
    rw [List.all_eq_true]
    intro d hd
    exact natDigits_all_digit m.natAbs d (heq ▸ List.mem_cons_of_mem c hd)
  have hne : c ≠ '0' := by
    have := natDigits_head_ne_zero m.natAbs (by omega)
    rw [heq] at this
    simpa using this
  unfold isCanonicalDecimal
  rw [show (String.mk (natDigits m.natAbs)).data = natDigits m.natAbs from rfl,
    heq]
  simp [hcdig, hcs, hne]

theorem int64Range_some {x v : Int} (h : int64Range x = some v) :
    v = x ∧ -(2 ^ 63) ≤ v ∧ v ≤ 2 ^ 63 - 1 := by
  unfold int64Range at h
  split at h
  · cases h
    constructor
    · rfl
    · assumption
  · cases h

theorem Atoi_bounds {t : String} {v : Int} (h : strconv.Atoi t = some v) :
    -(2 ^ 63) ≤ v ∧ v ≤ 2 ^ 63 - 1 := by
  rcases hd : t.data with _ | ⟨c, cs⟩
  · rw [Atoi_data_nil t hd] at h
    cases h
  · rw [Atoi_data_cons t c cs hd] at h
    unfold strconv.atoiSigned at h
    split_ifs at h <;>
      (obtain ⟨n, _, hr⟩ := Option.bind_eq_some.mp h
       exact (int64Range_some hr).2)

theorem int_le_foldl_max (l : List Int) : ∀ a : Int, a ≤ l.foldl max a := by
  induction l with
  | nil => intro a; exact le_refl a
  | cons x xs ih =>
    intro a
    exact le_trans (le_max_left a x) (ih (max a x))

theorem int_foldl_max_le (l : List Int) :
    ∀ a b : Int, a ≤ b → (∀ x ∈ l, x ≤ b) → l.foldl max a ≤ b := by
  induction l with
  | nil => intro a b ha _; exact ha
  | cons x xs ih =>
    intro a b ha hall
    exact ih (max a x) b (max_le ha (hall x (List.mem_cons_self x xs)))
      (fun y hy => hall y (List.mem_cons_of_mem x hy))

theorem int_mem_le_foldl_max (l : List Int) :
    ∀ (a x : Int), x ∈ l → x ≤ l.foldl max a := by
  induction l with
  | nil => intro a x hx; exact absurd hx (List.not_mem_nil x)
  | cons y ys ih =>
    intro a x hx
    rcases List.mem_cons.mp hx with hx | hx
    · subst hx
      exact le_trans (le_max_right a x) (int_le_foldl_max ys (max a x))
    · exact ih (max a y) x hx

theorem if_gt_eq_max (a b : Int) : (if b > a then b else a) = max a b := by
  rw [max_def]
  split <;> split <;> omega

theorem botVersionsPageFn_eq (s : String) (st : Int)
    (p : Option GetBotVersionsOutput) (l : Bool) :
    botVersionsPageFn s st p l = (scanLabels s st (botPageLabels p), !l) := by
  cases p with
  | none => rfl
  | some page =>
    simp only [botVersionsPageFn, botPageLabels, scanLabels, List.foldl_map]
    rfl

theorem intentVersionsPageFn_eq (s : String) (st : Int)
    (p : Option GetIntentVersionsOutput) (l : Bool) :
    intentVersionsPageFn s st p l = (scanLabels s st (intentPageLabels p), !l) := by
  cases p with
  | none => rfl
  | some page =>
    simp only [intentVersionsPageFn, intentPageLabels, scanLabels,
      List.foldl_map]
    rfl

theorem slotTypeVersionsPageFn_eq (s : String) (st : Int)
    (p : Option GetSlotTypeVersionsOutput) (l : Bool) :
    slotTypeVersionsPageFn s st p l =
      (scanLabels s st (slotTypePageLabels p), !l) := by
  cases p with
  | none => rfl
  | some page =>
    simp only [slotTypeVersionsPageFn, slotTypePageLabels, scanLabels,
      List.foldl_map]
    rfl

theorem scanLabels_append (s : String) (st : Int) (a b : List String) :
    scanLabels s st (a ++ b) = scanLabels s (scanLabels s st a) b := by
  simp only [scanLabels, List.foldl_append]

theorem scanLabels_eq (s : String) :
    ∀ (labels : List String) (st : Int),
      scanLabels s st labels = (parsedVersions s labels).foldl max st := by
  intro labels
  induction labels with
  | nil => intro st; rfl
  | cons v vs ih =>
    intro st
    by_cases hv : v = s
    · have hb : (v != s) = false := by simp [hv]
      have hstep : stepMax s st v = st := by
        simp [stepMax, hv]
      simp only [scanLabels, List.foldl_cons] at *
      rw [hstep, ih st]
      simp [parsedVersions, List.filter_cons, hb]
    · have hb : (v != s) = true := bne_iff_ne.mpr hv
      have hbeq : (v == s) = false := by simpa using hv
      cases hA : strconv.Atoi v with
      | none =>
        have hstep : stepMax s st v = st := by
          simp [stepMax, hbeq, hA]
        simp only [scanLabels, List.foldl_cons] at *
        rw [hstep, ih st]
        simp only [parsedVersions, List.filter_cons, hb, if_pos,
          List.filterMap_cons_none hA]
      | some k =>
        have hstep : stepMax s st v = max st k := by
          simp only [stepMax, hbeq, Bool.false_eq_true, if_false, hA]
          exact if_gt_eq_max st k
        simp only [scanLabels, List.foldl_cons] at *
        rw [hstep, ih (max st k)]
        simp only [parsedVersions, List.filter_cons, hb, if_pos,
          List.filterMap_cons_some hA, List.foldl_cons]

theorem botAllLabels_cons (p : Option GetBotVersionsOutput)
    (ps : List (Option GetBotVersionsOutput)) :
    botAllLabels (p :: ps) = botPageLabels p ++ botAllLabels ps := by
  simp [botAllLabels]

theorem pagesWithContext_bot_ok {ε : Type} (s : String) :
    ∀ (pages : List (Option GetBotVersionsOutput)) (st : Int),
      pagesWithContext (ε := ε) (botVersionsPageFn s) (pages.map Except.ok) st =
        (scanLabels s st (botAllLabels pages), none) := by
  intro pages
  induction pages with
  | nil => intro st; rfl
  | cons p ps ih =>
    intro st
    simp only [List.map_cons, pagesWithContext, botVersionsPageFn_eq]
    cases ps with
    | nil =>
      simp [botAllLabels_cons, botAllLabels, scanLabels]
    | cons q qs =>
      simp only [List.map_cons, List.isEmpty_cons, Bool.not_false, if_true]
      rw [← List.map_cons, ih]
      simp [botAllLabels_cons, scanLabels_append]

theorem pagesWithContext_bot_err {ε : Type} (s : String) (e : ε)
    (rest : List (Except ε (Option GetBotVersionsOutput))) :
    ∀ (pages : List (Option GetBotVersionsOutput)) (st : Int),
      pagesWithContext (botVersionsPageFn s)
          (pages.map Except.ok ++ Except.error e :: rest) st =
        (scanLabels s st (botAllLabels pages), some e) := by
  intro pages
  induction pages with
  | nil => intro st; rfl
  | cons p ps ih =>
    intro st
    simp only [List.map_cons, List.cons_append, pagesWithContext,
      botVersionsPageFn_eq, List.append_eq]
    have hne : ((ps.map Except.ok ++ Except.error e :: rest).isEmpty) = false := by
      cases hps : ps.map Except.ok with
      | nil => rfl
      | cons a as => rfl
    rw [hne]
    simp only [Bool.not_false, if_true]
    rw [ih, botAllLabels_cons, scanLabels_append]

theorem FindLatestBot_ok_eq {ε : Type} (s : String)
    (pages : List (Option GetBotVersionsOutput)) :
    FindLatestBotVersionByName (ε := ε) s (pages.map Except.ok) =
      (specLatestVersionAmended s (botAllLabels pages), none) := by
  simp only [FindLatestBotVersionByName, pagesWithContext_bot_ok,
    scanLabels_eq, specLatestVersionAmended]
  by_cases h : (parsedVersions s (botAllLabels pages)).foldl max 0 = 0 <;>
    simp [h]

theorem FindLatestBot_err_eq {ε : Type} (s : String)
    (pages : List (Option GetBotVersionsOutput)) (e : ε)
    (rest : List (Except ε (Option GetBotVersionsOutput))) :
    FindLatestBotVersionByName s (pages.map Except.ok ++ Except.error e :: rest) =
      ("", some e) := by
  simp only [FindLatestBotVersionByName, pagesWithContext_bot_err]

theorem botAllLabels_append (a b : List (Option GetBotVersionsOutput)) :
    botAllLabels (a ++ b) = botAllLabels a ++ botAllLabels b := by
  simp [botAllLabels]

theorem parsedVersions_append (s : String) (a b : List String) :
    parsedVersions s (a ++ b) = parsedVersions s a ++ parsedVersions s b := by
  simp [parsedVersions]

theorem mem_parsedVersions {s label : String} {v : Int} {labels : List String}
    (hmem : label ∈ labels) (hne : label ≠ s)
    (hparse : strconv.Atoi label = some v) :
    v ∈ parsedVersions s labels := by
  unfold parsedVersions
  exact List.mem_filterMap.mpr
    ⟨label, List.mem_filter.mpr ⟨hmem, bne_iff_ne.mpr hne⟩, hparse⟩

theorem parsedVersions_upper (s : String) (labels : List String) :
    ∀ v ∈ parsedVersions s labels, v ≤ 2 ^ 63 - 1 := by
  intro v hv
  obtain ⟨label, _, hp⟩ := List.mem_filterMap.mp hv
  exact (Atoi_bounds hp).2

theorem botPageLabels_eq_records (p : Option GetBotVersionsOutput) :
    botPageLabels p = (botPageRecords p).map fun bot => aws.ToString bot.Version := by
  cases p <;> rfl

theorem botPageLabels_ofLabels (page : Option (List (Option String))) :
    botPageLabels (botPageOfLabels page) = (page.getD []).map aws.ToString := by
  cases page with
  | none => rfl
  | some versions =>
    show ((versions.map BotMetadata.mk).map fun bot => aws.ToString bot.Version) =
      versions.map aws.ToString
    rw [List.map_map]
    rfl

theorem intentPageLabels_ofLabels (page : Option (List (Option String))) :
    intentPageLabels (intentPageOfLabels page) = (page.getD []).map aws.ToString := by
  cases page with
  | none => rfl
  | some versions =>
    show ((versions.map IntentMetadata.mk).map fun intent =>
        aws.ToString intent.Version) = versions.map aws.ToString
    rw [List.map_map]
    rfl

theorem slotTypePageLabels_ofLabels (page : Option (List (Option String))) :
    slotTypePageLabels (slotTypePageOfLabels page) = (page.getD []).map aws.ToString := by
  cases page with
  | none => rfl
  | some versions =>
    show ((versions.map SlotTypeMetadata.mk).map fun slot =>
        aws.ToString slot.Version) = versions.map aws.ToString
    rw [List.map_map]
    rfl

theorem isEmpty_map {α β : Type} (f : α → β) (l : List α) :
    (l.map f).isEmpty = l.isEmpty := by
  cases l <;> rfl

theorem pagesWithContext_congr {σ ε π₁ π₂ ρ : Type}
    (fn₁ : σ → Option π₁ → Bool → σ × Bool)
    (fn₂ : σ → Option π₂ → Bool → σ × Bool)
    (g₁ : ρ → Option π₁) (g₂ : ρ → Option π₂)
    (h : ∀ st p l, fn₁ st (g₁ p) l = fn₂ st (g₂ p) l) :
    ∀ (fetches : List (Except ε ρ)) (st : σ),
      pagesWithContext fn₁ (fetches.map (Except.map g₁)) st =
        pagesWithContext fn₂ (fetches.map (Except.map g₂)) st := by
  intro fetches
  induction fetches with
  | nil => intro st; rfl
  | cons f fs ih =>
    intro st
    cases f with
    | error e => rfl
    | ok p =>
      simp only [List.map_cons, Except.map, pagesWithContext]
      rw [isEmpty_map, isEmpty_map, h st p fs.isEmpty]
      split
      · exact ih _
      · rfl

/-- Claim C1 fails as stated: for the one-page result set whose single
record carries the version label "0", a numeric version label is observed,
so the claimed rule (`specLatestVersion`, the maximum parsed integer
re-encoded in decimal) yields "0", while `FindLatestBotVersionByName`
returns the sentinel, because its running maximum is still zero. -/
theorem claim1_latest_version_counterexample :
    specLatestVersion "$LATEST" (botAllLabels [some ⟨[⟨some "0"⟩]⟩]) = "0" ∧
    FindLatestBotVersionByName (ε := Unit) "$LATEST"
        [Except.ok (some ⟨[⟨some "0"⟩]⟩)] = ("$LATEST", none) ∧
    ("0" : String) ≠ "$LATEST" := by
  refine ⟨by decide, by decide, by decide⟩

/-- Claim C1, amended: for every sentinel and every successful multi-page
result set, the resolver skips records whose label equals the sentinel,
skips records whose label fails integer parsing, and folds the remaining
parsed integers with `max` starting from zero; it returns the sentinel
when that running maximum is still zero (in particular when no positive
numeric label was observed), and otherwise the maximum re-encoded as its
decimal string. -/
theorem claim1_latest_version_resolution_amended {ε : Type} (s : String)
    (pages : List (Option GetBotVersionsOutput)) :
    FindLatestBotVersionByName (ε := ε) s (pages.map Except.ok) =
      (specLatestVersionAmended s (botAllLabels pages), none) :=
  FindLatestBot_ok_eq s pages

/-- Claim C2: when a page fetch fails, whatever successfully fetched pages
preceded it and whatever fetches would have followed, the resolver returns
exactly that error together with the empty version string. -/
theorem claim2_error_propagation {ε : Type} (s : String)
    (pages : List (Option GetBotVersionsOutput)) (e : ε)
    (rest : List (Except ε (Option GetBotVersionsOutput))) :
    FindLatestBotVersionByName s
        (pages.map Except.ok ++ Except.error e :: rest) = ("", some e) :=
  FindLatestBot_err_eq s pages e rest

/-- Claim C3: in a multi-page result set whose maximal (positive) parsed
version label sits on a non-final page, the resolver still returns that
maximum: pagination is exhaustive, every page contributes. -/
theorem claim3_exhaustive_pagination {ε : Type} (s : String)
    (front : List (Option GetBotVersionsOutput))
    (p : Option GetBotVersionsOutput)
    (rest : List (Option GetBotVersionsOutput)) (m : Int)
    (_hrest : rest ≠ [])
    (hm : m ∈ parsedVersions s (botPageLabels p))
    (hmax : ∀ v ∈ parsedVersions s (botAllLabels (front ++ p :: rest)), v ≤ m)
    (hpos : 0 < m) :
    FindLatestBotVersionByName (ε := ε) s ((front ++ p :: rest).map Except.ok) =
      (strconv.Itoa m, none) := by
  rw [FindLatestBot_ok_eq]
  have hmem : m ∈ parsedVersions s (botAllLabels (front ++ p :: rest)) := by
    rw [botAllLabels_append, botAllLabels_cons, parsedVersions_append,
      parsedVersions_append]
    exact List.mem_append_right _ (List.mem_append_left _ hm)
  have hM : (parsedVersions s (botAllLabels (front ++ p :: rest))).foldl max 0 = m :=
    le_antisymm (int_foldl_max_le _ 0 m (by omega) hmax)
      (int_mem_le_foldl_max _ 0 m hmem)
  simp only [specLatestVersionAmended, hM]
  rw [if_neg (by omega)]

theorem claim3_exhaustive_pagination_witness :
    FindLatestBotVersionByName (ε := Unit) "$LATEST"
        ((([] : List (Option GetBotVersionsOutput)) ++
            (some ⟨[⟨some "7"⟩]⟩ : Option GetBotVersionsOutput) ::
              [(some ⟨[⟨some "3"⟩]⟩ : Option GetBotVersionsOutput)]).map
          Except.ok) =
      ("7", none) := by
  have h := claim3_exhaustive_pagination (ε := Unit) "$LATEST" []
    (some ⟨[⟨some "7"⟩]⟩) [some ⟨[⟨some "3"⟩]⟩] 7 (by decide) (by decide)
    (by decide) (by decide)
  rw [h]
  decide

/-- Claim C4: every successful resolution yields either the sentinel label
or a canonical non-negative decimal integer string without leading zeros. -/
theorem claim4_result_shape {ε : Type} (s : String)
    (pages : List (Option GetBotVersionsOutput)) :
    (FindLatestBotVersionByName (ε := ε) s (pages.map Except.ok)).1 = s ∨
      isCanonicalDecimal
        (FindLatestBotVersionByName (ε := ε) s (pages.map Except.ok)).1 = true := by
  rw [FindLatestBot_ok_eq]
  by_cases h : (parsedVersions s (botAllLabels pages)).foldl max 0 = 0
  · left
    simp [specLatestVersionAmended, h]
  · right
    have h0 : (0 : Int) ≤ (parsedVersions s (botAllLabels pages)).foldl max 0 :=
      int_le_foldl_max _ 0
    simp only [specLatestVersionAmended, if_neg h]
    exact isCanonicalDecimal_Itoa _ (by omega)

/-- Claim C5: when the sentinel itself is not a numeric label, a successful
resolution never yields a decimal value lower than any valid numeric
non-sentinel label present in the input, and the presence of non-numeric
labels never makes the resolution fail. -/
theorem claim5_max_lower_bound {ε : Type} (s : String)
    (pages : List (Option GetBotVersionsOutput)) (label : String) (v : Int)
    (hs : strconv.Atoi s = none)
    (hmem : label ∈ botAllLabels pages)
    (hne : label ≠ s)
    (hparse : strconv.Atoi label = some v) :
    (FindLatestBotVersionByName (ε := ε) s (pages.map Except.ok)).2 = none ∧
      ∀ m : Int,
        strconv.Atoi
            (FindLatestBotVersionByName (ε := ε) s (pages.map Except.ok)).1 =
          some m → v ≤ m := by
  rw [FindLatestBot_ok_eq]
  refine ⟨rfl, ?_⟩
  intro m hm
  simp only [specLatestVersionAmended] at hm
  by_cases hM : (parsedVersions s (botAllLabels pages)).foldl max 0 = 0
  · rw [if_pos hM, hs] at hm
    cases hm
  · rw [if_neg hM] at hm
    have hvm : v ∈ parsedVersions s (botAllLabels pages) :=
      mem_parsedVersions hmem hne hparse
    have hvM : v ≤ (parsedVersions s (botAllLabels pages)).foldl max 0 :=
      int_mem_le_foldl_max _ 0 v hvm
    have h0 : (0 : Int) ≤ (parsedVersions s (botAllLabels pages)).foldl max 0 :=
      int_le_foldl_max _ 0
    have hMr : (parsedVersions s (botAllLabels pages)).foldl max 0 ≤ 2 ^ 63 - 1 :=
      int_foldl_max_le _ 0 _ (by norm_num) (parsedVersions_upper s _)
    rw [Atoi_Itoa _ (by omega) hMr] at hm
    injection hm with hw
    omega

theorem claim5_max_lower_bound_witness :
    (FindLatestBotVersionByName (ε := Unit) "$LATEST"
        ([some ⟨[⟨some "5"⟩, ⟨some "2"⟩]⟩].map Except.ok)).2 = none ∧
      (5 : Int) ≤ 5 := by
  have h := claim5_max_lower_bound (ε := Unit) "$LATEST"
    [some ⟨[⟨some "5"⟩, ⟨some "2"⟩]⟩] "5" 5 (by decide) (by decide)
    (by decide) (by decide)
  exact ⟨h.1, h.2 5 (by decide)⟩

/-- Claim C6: the three resolvers implement identical resolution logic.
For any sentinel literal and any sequence of page-fetch outcomes carrying
the same version labels, `FindLatestIntentVersionByName` and
`FindLatestSlotTypeVersionByName` produce exactly the result of
`FindLatestBotVersionByName`, errors included. -/
theorem claim6_three_resolvers_agree {ε : Type} (s : String)
    (fetches : List (Except ε (Option (List (Option String))))) :
    FindLatestIntentVersionByName s
        (fetches.map (Except.map intentPageOfLabels)) =
      FindLatestBotVersionByName s
        (fetches.map (Except.map botPageOfLabels)) ∧
    FindLatestSlotTypeVersionByName s
        (fetches.map (Except.map slotTypePageOfLabels)) =
      FindLatestBotVersionByName s
        (fetches.map (Except.map botPageOfLabels)) := by
  constructor
  · simp only [FindLatestIntentVersionByName, FindLatestBotVersionByName]
    rw [pagesWithContext_congr (intentVersionsPageFn s) (botVersionsPageFn s)
      intentPageOfLabels botPageOfLabels
      (fun st p l => by
        rw [intentVersionsPageFn_eq, botVersionsPageFn_eq,
          intentPageLabels_ofLabels, botPageLabels_ofLabels])
      fetches 0]
  · simp only [FindLatestSlotTypeVersionByName, FindLatestBotVersionByName]
    rw [pagesWithContext_congr (slotTypeVersionsPageFn s) (botVersionsPageFn s)
      slotTypePageOfLabels botPageOfLabels
      (fun st p l => by
        rw [slotTypeVersionsPageFn_eq, botVersionsPageFn_eq,
          slotTypePageLabels_ofLabels, botPageLabels_ofLabels])
      fetches 0]

/-- Claim C7: when all page fetches succeed and none contributes a record,
the resolver returns the sentinel label and no error. -/
theorem claim7_empty_result {ε : Type} (s : String)
    (pages : List (Option GetBotVersionsOutput))
    (h : ∀ p ∈ pages, botPageRecords p = []) :
    FindLatestBotVersionByName (ε := ε) s (pages.map Except.ok) = (s, none) := by
  have hlab : ∀ ps : List (Option GetBotVersionsOutput),
      (∀ p ∈ ps, botPageRecords p = []) → botAllLabels ps = [] := by
    intro ps
    induction ps with
    | nil => intro _; rfl
    | cons p qs ih =>
      intro hall
      rw [botAllLabels_cons, botPageLabels_eq_records,
        hall p (List.mem_cons_self p qs),
        ih fun q hq => hall q (List.mem_cons_of_mem p hq)]
      rfl
  rw [FindLatestBot_ok_eq, hlab pages h]
  rfl

theorem claim7_empty_result_witness :
    FindLatestBotVersionByName (ε := Unit) "$LATEST"
        (([none, some ⟨[]⟩] : List (Option GetBotVersionsOutput)).map
          Except.ok) =
      ("$LATEST", none) :=
  claim7_empty_result "$LATEST" [none, some ⟨[]⟩] (by decide)

/-- Claim C8: a malformed (non-numeric, non-sentinel) label interspersed
among numeric ones is skipped without error: on labels "5", "abc", "2" the
resolver returns "5" and no error. -/
theorem claim8_malformed_label_skipped (s : String)
    (h5 : s ≠ "5") (habc : s ≠ "abc") (h2 : s ≠ "2") :
    FindLatestBotVersionByName (ε := Unit) s
        (([some ⟨[⟨some "5"⟩, ⟨some "abc"⟩, ⟨some "2"⟩]⟩] :
            List (Option GetBotVersionsOutput)).map Except.ok) =
      ("5", none) := by
  rw [FindLatestBot_ok_eq]
  have hlab :
      botAllLabels [some ⟨[⟨some "5"⟩, ⟨some "abc"⟩, ⟨some "2"⟩]⟩] =
        ["5", "abc", "2"] := rfl
  rw [hlab]
  have hp : parsedVersions s ["5", "abc", "2"] = [5, 2] := by
    unfold parsedVersions
    rw [List.filter_cons, List.filter_cons, List.filter_cons,
      if_pos (bne_iff_ne.mpr (Ne.symm h5)),
      if_pos (bne_iff_ne.mpr (Ne.symm habc)),
      if_pos (bne_iff_ne.mpr (Ne.symm h2)), List.filter_nil]
    decide
  simp only [specLatestVersionAmended, hp]
  rw [if_neg (by decide)]
  decide

theorem claim8_malformed_label_skipped_witness :
    FindLatestBotVersionByName (ε := Unit) "$LATEST"
        (([some ⟨[⟨some "5"⟩, ⟨some "abc"⟩, ⟨some "2"⟩]⟩] :
            List (Option GetBotVersionsOutput)).map Except.ok) =
      ("5", none) :=
  claim8_malformed_label_skipped "$LATEST" (by decide) (by decide) (by decide)

/-- Claim C9: the single-item lookup helpers translate errors. When the
underlying call fails with a `NotFoundException`, they return a nil output
and a provider-level not-found error wrapping that error and the request;
any other error is returned unchanged; a successful call with a nil output
becomes an empty-result error; otherwise the non-nil output is returned
with a nil error. Stated for `FindBotVersionByName` and
`FindSlotTypeVersionByName`. -/
theorem claim9_single_item_lookup_translation (name version : String)
    (GetBot : GetBotInput → Option GetBotOutput × Option AWSError)
    (GetSlotType : GetSlotTypeInput → Option GetSlotTypeOutput × Option AWSError)
    (bout : Option GetBotOutput) (berr : Option AWSError)
    (sout : Option GetSlotTypeOutput) (serr : Option AWSError)
    (hb : GetBot ⟨some name, some version⟩ = (bout, berr))
    (hsl : GetSlotType ⟨some name, some version⟩ = (sout, serr)) :
    ((∀ msg, berr = some (AWSError.notFoundException msg) →
        FindBotVersionByName name version GetBot =
          (none, some (ProviderError.notFoundError berr
            ⟨some name, some version⟩))) ∧
      (∀ e, berr = some e → errs.IsANotFoundException berr = false →
        FindBotVersionByName name version GetBot =
          (none, some (ProviderError.passthrough e))) ∧
      (berr = none → bout = none →
        FindBotVersionByName name version GetBot =
          (none, some (ProviderError.emptyResultError
            ⟨some name, some version⟩))) ∧
      (berr = none → ∀ o, bout = some o →
        FindBotVersionByName name version GetBot = (some o, none))) ∧
    ((∀ msg, serr = some (AWSError.notFoundException msg) →
        FindSlotTypeVersionByName name version GetSlotType =
          (none, some (ProviderError.notFoundError serr
            ⟨some name, some version⟩))) ∧
      (∀ e, serr = some e → errs.IsANotFoundException serr = false →
        FindSlotTypeVersionByName name version GetSlotType =
          (none, some (ProviderError.passthrough e))) ∧
      (serr = none → sout = none →
        FindSlotTypeVersionByName name version GetSlotType =
          (none, some (ProviderError.emptyResultError
            ⟨some name, some version⟩))) ∧
      (serr = none → ∀ o, sout = some o →
        FindSlotTypeVersionByName name version GetSlotType =
          (some o, none))) := by
  refine ⟨⟨?_, ?_, ?_, ?_⟩, ?_, ?_, ?_, ?_⟩
  · intro msg hmsg
    subst hmsg
    simp [FindBotVersionByName, hb, errs.IsANotFoundException]
  · intro e he hnf
    subst he
    cases e with
    | notFoundException msg => simp [errs.IsANotFoundException] at hnf
    | otherError msg =>
      simp [FindBotVersionByName, hb, errs.IsANotFoundException]
  · intro h1 h2
    subst h1
    subst h2
    simp [FindBotVersionByName, hb, errs.IsANotFoundException]
  · intro h1 o h2
    subst h1
    subst h2
    simp [FindBotVersionByName, hb, errs.IsANotFoundException]
  · intro msg hmsg
    subst hmsg
    simp [FindSlotTypeVersionByName, hsl, errs.IsANotFoundException]
  · intro e he hnf
    subst he
    cases e with
    | notFoundException msg => simp [errs.IsANotFoundException] at hnf
    | otherError msg =>
      simp [FindSlotTypeVersionByName, hsl, errs.IsANotFoundException]
  · intro h1 h2
    subst h1
    subst h2
    simp [FindSlotTypeVersionByName, hsl, errs.IsANotFoundException]
  · intro h1 o h2
    subst h1
    subst h2
    simp [FindSlotTypeVersionByName, hsl, errs.IsANotFoundException]

theorem claim9_single_item_lookup_translation_witness :
    FindBotVersionByName "b" "1"
        (fun _ => (none, some (AWSError.notFoundException "nf"))) =
      (none, some (ProviderError.notFoundError
        (some (AWSError.notFoundException "nf")) ⟨some "b", some "1"⟩)) ∧
    FindSlotTypeVersionByName "b" "1"
        (fun _ => (some ⟨some "st"⟩, none)) =
      (some ⟨some "st"⟩, none) := by
  have h := claim9_single_item_lookup_translation "b" "1"
    (fun _ => (none, some (AWSError.notFoundException "nf")))
    (fun _ => (some ⟨some "st"⟩, none))
    none (some (AWSError.notFoundException "nf"))
    (some ⟨some "st"⟩) none rfl rfl
  exact ⟨h.1.1 "nf" rfl, h.2.2.2.2 rfl ⟨some "st"⟩ rfl⟩

/-- Claim C10: when every parsed label in the result set parses to a value
at most zero, the resolver returns the sentinel and no error: the running
maximum starts at zero and is only replaced by strictly greater values, so
non-positive numeric labels never affect the result. -/
theorem claim10_nonpositive_versions {ε : Type} (s : String)
    (pages : List (Option GetBotVersionsOutput))
    (h : ∀ l ∈ botAllLabels pages, ∀ v : Int, strconv.Atoi l = some v → v ≤ 0) :
    FindLatestBotVersionByName (ε := ε) s (pages.map Except.ok) = (s, none) := by
  rw [FindLatestBot_ok_eq]
  have hM : (parsedVersions s (botAllLabels pages)).foldl max 0 = 0 := by
    refine le_antisymm (int_foldl_max_le _ 0 0 le_rfl ?_) (int_le_foldl_max _ 0)
    intro x hx
    obtain ⟨label, hmem, hp⟩ := List.mem_filterMap.mp hx
    exact h label (List.mem_filter.mp hmem).1 x hp
  simp [specLatestVersionAmended, hM]

theorem claim10_nonpositive_versions_witness :
    FindLatestBotVersionByName (ε := Unit) "$LATEST"
        (([some ⟨[⟨some "0"⟩, ⟨some "-3"⟩]⟩] :
            List (Option GetBotVersionsOutput)).map Except.ok) =
      ("$LATEST", none) := by
  refine claim10_nonpositive_versions "$LATEST" _ ?_
  intro l hl v hv
  have hlab : l ∈ (["0", "-3"] : List String) := hl
  rcases List.mem_cons.mp hlab with h1 | h1
  · subst h1
    rw [show strconv.Atoi "0" = some 0 from by decide] at hv
    injection hv with hw
    omega
  · rw [List.mem_singleton] at h1
    subst h1
    rw [show strconv.Atoi "-3" = some (-3) from by decide] at hv
    injection hv with hw
    omega
